import Mathlib

/-!
Verification of the JobSearch harvesting engine.

This file is a shallow embedding of the core extraction and convergence
machinery of the repository:

* `utils.py` : `get_by_path`, `clean_string`;
* `models/company.py` : `CompanyData.extract_jobs_from_html`,
  `CompanyData.extract_jobs_from_json`, `CompanyAPI.fetch_results`,
  `CompanyScrape.scrape_results`, `JSONJobContainer`, `HTMLJobContainer`
  and their metadata;
* `Models/company.py` : `Company.fetch_results_of_pagination` and
  `Company.get_unique_results`.

External collaborators (the browser/HTTP transport, the BeautifulSoup
tag-query primitives `find_single_tag` / `find_multiple_tags`, and the
`re.search(...).group(1)` regex primitive) are abstracted as function
parameters, exactly at the interface the code uses them.

Python-specific behaviour is modelled explicitly: dictionaries are
association lists with insert-or-overwrite semantics (`pyDict`), Python
exceptions become an error type (`PyError`), and string truthiness
(`None` and `""` both falsy) is modelled by `truthyOptStr`.
-/

set_option autoImplicit false

/-- Python exceptions that the extraction pipeline distinguishes:
`ValueError` (raised for empty titles and ids), `AttributeError`
(raised by attribute access on `None`, e.g. a failed `find` or a failed
`re.search`), and any other exception (carrying its message). -/
inductive PyError where
  | valueError (msg : String)
  | attributeError
  | otherError (msg : String)
  deriving DecidableEq, Repr

/-- Truthiness of a Python `Optional[str]`: `None` and `""` are falsy. -/
def truthyOptStr : Option String → Bool
  | none => false
  | some s => s ≠ ""

/-! ## Python dictionaries as association lists

A Python dict built by successive `d[k] = v` assignments (equivalently a
dict comprehension) keeps one entry per key: the first occurrence of a
key fixes the entry's position, later assignments overwrite the value in
place.  `insertPos` is one assignment and `pyDict` folds a pair list into
a dict, mirroring `{f(x): g(x) for x in xs}`. -/

/-- One Python dict assignment `d[k] = v`: overwrite in place if the key
is present, append otherwise. -/
def insertPos {K V : Type} [DecidableEq K] (k : K) (v : V) : List (K × V) → List (K × V)
  | [] => [(k, v)]
  | (k', v') :: t => if k' = k then (k, v) :: t else (k', v') :: insertPos k v t

/-- Build a Python dict from a list of key-value pairs, in order. -/
def pyDict {K V : Type} [DecidableEq K] (l : List (K × V)) : List (K × V) :=
  l.foldl (fun d p => insertPos p.1 p.2 d) []

/-- Lookup in an association list (first match). -/
def alookup {K V : Type} [DecidableEq K] (k : K) : List (K × V) → Option V
  | [] => none
  | (k', v) :: t => if k' = k then some v else alookup k t

/-- Value associated to the last pair carrying key `k`, if any: the
value a Python dict comprehension ends up storing for `k`. -/
def lastVal {K V : Type} [DecidableEq K] (k : K) : List (K × V) → Option V
  | [] => none
  | (k', v) :: t =>
    match lastVal k t with
    | some w => some w
    | none => if k' = k then some v else none

section PyDictLemmas

variable {K V : Type} [DecidableEq K]

theorem map_fst_insertPos (k : K) (v : V) (d : List (K × V)) :
    (insertPos k v d).map Prod.fst =
      if k ∈ d.map Prod.fst then d.map Prod.fst else d.map Prod.fst ++ [k] := by
  induction d with
  | nil => simp [insertPos]
  | cons p t ih =>
    obtain ⟨k', v'⟩ := p
    by_cases h : k' = k
    · subst h
      simp [insertPos]
    · simp only [insertPos, if_neg h, List.map_cons]
      rw [ih]
      by_cases hm : k ∈ t.map Prod.fst
      · simp [hm, h, Ne.symm h]
      · simp [hm, h, Ne.symm h]

theorem nodup_map_fst_insertPos (k : K) (v : V) (d : List (K × V))
    (h : (d.map Prod.fst).Nodup) : ((insertPos k v d).map Prod.fst).Nodup := by
  rw [map_fst_insertPos]
  by_cases hm : k ∈ d.map Prod.fst
  · simpa [hm] using h
  · simp only [if_neg hm]
    refine List.Nodup.append h (List.nodup_singleton k) ?_
    intro a ha hak
    rw [List.mem_singleton] at hak
    subst hak
    exact hm ha

theorem toFinset_map_fst_insertPos (k : K) (v : V) (d : List (K × V)) :
    ((insertPos k v d).map Prod.fst).toFinset = insert k (d.map Prod.fst).toFinset := by
  rw [map_fst_insertPos]
  by_cases hm : k ∈ d.map Prod.fst
  · rw [if_pos hm]
    rw [Finset.insert_eq_self.mpr (by simpa using hm)]
  · rw [if_neg hm]
    ext a
    simp [or_comm]

theorem nodup_map_fst_foldl (l : List (K × V)) :
    ∀ d : List (K × V), (d.map Prod.fst).Nodup →
      ((l.foldl (fun d p => insertPos p.1 p.2 d) d).map Prod.fst).Nodup := by
  induction l with
  | nil => intro d h; simpa using h
  | cons p t ih =>
    intro d h
    simp only [List.foldl_cons]
    exact ih _ (nodup_map_fst_insertPos p.1 p.2 d h)

/-- The keys of a Python dict are pairwise distinct. -/
theorem pyDict_nodup_keys (l : List (K × V)) : ((pyDict l).map Prod.fst).Nodup :=
  nodup_map_fst_foldl l [] (by simp)

theorem toFinset_map_fst_foldl (l : List (K × V)) :
    ∀ d : List (K × V),
      ((l.foldl (fun d p => insertPos p.1 p.2 d) d).map Prod.fst).toFinset =
        (d.map Prod.fst).toFinset ∪ (l.map Prod.fst).toFinset := by
  induction l with
  | nil => intro d; simp
  | cons p t ih =>
    intro d
    simp only [List.foldl_cons]
    rw [ih, toFinset_map_fst_insertPos]
    ext a
    simp only [Finset.mem_union, Finset.mem_insert, List.mem_toFinset, List.map_cons,
      List.mem_cons]
    tauto

/-- The key set of a Python dict is the key set of the input pairs. -/
theorem pyDict_keys_toFinset (l : List (K × V)) :
    ((pyDict l).map Prod.fst).toFinset = (l.map Prod.fst).toFinset := by
  rw [pyDict, toFinset_map_fst_foldl]
  simp

/-- The size of a Python dict is the number of distinct input keys. -/
theorem pyDict_length (l : List (K × V)) :
    (pyDict l).length = (l.map Prod.fst).toFinset.card := by
  rw [← pyDict_keys_toFinset, List.toFinset_card_of_nodup (pyDict_nodup_keys l)]
  simp

theorem pyDict_append_single (l : List (K × V)) (p : K × V) :
    pyDict (l ++ [p]) = insertPos p.1 p.2 (pyDict l) := by
  simp [pyDict, List.foldl_append]

theorem alookup_insertPos_self (k : K) (v : V) (d : List (K × V)) :
    alookup k (insertPos k v d) = some v := by
  induction d with
  | nil => simp [insertPos, alookup]
  | cons p t ih =>
    obtain ⟨k', v'⟩ := p
    by_cases h : k' = k
    · subst h
      simp [insertPos, alookup]
    · simp [insertPos, alookup, h, ih]

theorem alookup_insertPos_ne (j k : K) (v : V) (d : List (K × V)) (h : j ≠ k) :
    alookup j (insertPos k v d) = alookup j d := by
  induction d with
  | nil => simp [insertPos, alookup, Ne.symm h]
  | cons p t ih =>
    obtain ⟨k', v'⟩ := p
    by_cases hk : k' = k
    · subst hk
      simp [insertPos, alookup, Ne.symm h]
    · simp only [insertPos, if_neg hk]
      by_cases hj : k' = j
      · simp [alookup, hj]
      · simp [alookup, hj, ih]

theorem lastVal_append_single (k : K) (l : List (K × V)) (p : K × V) :
    lastVal k (l ++ [p]) = if p.1 = k then some p.2 else lastVal k l := by
  induction l with
  | nil => simp [lastVal]
  | cons q t ih =>
    simp only [List.cons_append, lastVal, List.append_eq]
    rw [ih]
    by_cases h : p.1 = k
    · simp [h, lastVal]
    · simp [h, lastVal]

/-- Looking a key up in a Python dict returns the value of the last
input pair with that key: later assignments overwrite earlier ones. -/
theorem alookup_pyDict (k : K) (l : List (K × V)) :
    alookup k (pyDict l) = lastVal k l := by
  induction l using List.reverseRecOn with
  | nil => simp [pyDict, alookup, lastVal]
  | append_singleton t p ih =>
    rw [pyDict_append_single, lastVal_append_single]
    by_cases h : p.1 = k
    · subst h
      simp [alookup_insertPos_self]
    · rw [alookup_insertPos_ne _ _ _ _ (fun hk => h hk.symm), if_neg h, ih]

end PyDictLemmas

/-! ## Python string helpers

`clean_string` (utils.py) is built from Python's `str.replace("\xa0", " ")`,
`str.splitlines`, `" ".join`, `str.strip` and `str.split()`.  These are
modelled over `List Char`; `Char` codepoint sets follow `str.isspace` and
the `str.splitlines` line-boundary set. -/

/-- Characters Python's `str.split()` and `str.strip()` treat as
whitespace (`str.isspace`). -/
def pyIsSpace (c : Char) : Bool :=
  let n := c.toNat
  n = 0x20 || n = 0x9 || n = 0xa || n = 0xb || n = 0xc || n = 0xd ||
  (0x1c ≤ n && n ≤ 0x1f) || n = 0x85 || n = 0xa0 || n = 0x1680 ||
  (0x2000 ≤ n && n ≤ 0x200a) || n = 0x2028 || n = 0x2029 || n = 0x202f ||
  n = 0x205f || n = 0x3000

/-- Line boundaries recognised by Python's `str.splitlines`. -/
def pyIsLineBreak (c : Char) : Bool :=
  let n := c.toNat
  n = 0xa || n = 0xd || n = 0xb || n = 0xc ||
  (0x1c ≤ n && n ≤ 0x1e) || n = 0x85 || n = 0x2028 || n = 0x2029

/-- Worker for `str.splitlines`: `acc` is the current line; `\r\n` counts
as a single boundary; a trailing boundary does not open an empty line. -/
def splitlinesGo : List Char → List Char → List (List Char)
  | [], acc => if acc = [] then [] else [acc]
  | [c], acc =>
    if pyIsLineBreak c then [acc]
    else if acc ++ [c] = [] then [] else [acc ++ [c]]
  | c1 :: c2 :: t, acc =>
    if c1 = '\r' && c2 = '\n' then acc :: splitlinesGo t []
    else if pyIsLineBreak c1 then acc :: splitlinesGo (c2 :: t) []
    else splitlinesGo (c2 :: t) (acc ++ [c1])

/-- Python `str.splitlines` over a character list. -/
def pySplitlines (l : List Char) : List (List Char) :=
  splitlinesGo l []

/-- Python `" ".join` over character lists. -/
def joinSpace : List (List Char) → List Char
  | [] => []
  | [w] => w
  | w :: ws => w ++ ' ' :: joinSpace ws

/-- Python `str.strip()` over a character list. -/
def pyStripChars (l : List Char) : List Char :=
  ((l.dropWhile pyIsSpace).reverse.dropWhile pyIsSpace).reverse

/-- Python `str.strip()`. -/
def pyStrip (s : String) : String :=
  ⟨pyStripChars s.data⟩

/-- Worker for `str.split()`: `cur` is the word being accumulated; runs
of whitespace are separators and empty words are never produced. -/
def wordsGo : List Char → List Char → List (List Char)
  | [], cur => if cur = [] then [] else [cur]
  | c :: t, cur =>
    if pyIsSpace c then
      if cur = [] then wordsGo t [] else cur :: wordsGo t []
    else wordsGo t (cur ++ [c])

/-- Python `str.split()` (no separator argument) over a character list. -/
def pySplitWS (l : List Char) : List (List Char) :=
  wordsGo l []

/-- The no-break space character `\xa0` replaced by `clean_string`. -/
def nbsp : Char := Char.ofNat 0xa0

/-- Character-level body of `clean_string` (utils.py):
`" ".join(input.replace("\xa0", " ").splitlines()).strip()` followed by
`" ".join(output.split())` and a final `strip()`. -/
def clean_chars (l : List Char) : List Char :=
  let l1 := l.map fun c => if c = nbsp then ' ' else c
  let l2 := joinSpace (pySplitlines l1)
  let l3 := pyStripChars l2
  let l4 := joinSpace (pySplitWS l3)
  pyStripChars l4

/-- Embedding of `clean_string` (utils.py): collapse line breaks and
whitespace runs to single spaces and trim the ends. -/
def clean_string (s : String) : String :=
  ⟨clean_chars s.data⟩

/-- Python `str.lower()` (ASCII-faithful). -/
def pyLower (s : String) : String :=
  ⟨s.data.map Char.toLower⟩

/-! ## Python JSON values and `get_by_path`

A value decoded by `json.loads`: `None`, strings, numbers, booleans,
lists and string-keyed dicts.  `PyVal.vnone` also stands for Python's
`None`, which `dict.get` returns for an absent key. -/

inductive PyVal where
  | vnone
  | vstr (s : String)
  | vint (n : Int)
  | vbool (b : Bool)
  | vlist (l : List PyVal)
  | vdict (d : List (String × PyVal))

mutual

def PyVal.decEq : (a b : PyVal) → Decidable (a = b)
  | .vnone, .vnone => isTrue rfl
  | .vstr a, .vstr b =>
    if h : a = b then isTrue (by rw [h]) else isFalse (by intro k; injection k; contradiction)
  | .vint a, .vint b =>
    if h : a = b then isTrue (by rw [h]) else isFalse (by intro k; injection k; contradiction)
  | .vbool a, .vbool b =>
    if h : a = b then isTrue (by rw [h]) else isFalse (by intro k; injection k; contradiction)
  | .vlist a, .vlist b =>
    match PyVal.decEqList a b with
    | isTrue h => isTrue (by rw [h])
    | isFalse h => isFalse (by intro k; injection k; contradiction)
  | .vdict a, .vdict b =>
    match PyVal.decEqDict a b with
    | isTrue h => isTrue (by rw [h])
    | isFalse h => isFalse (by intro k; injection k; contradiction)
  | .vnone, .vstr _ => isFalse (by intro k; injection k)
  | .vnone, .vint _ => isFalse (by intro k; injection k)
  | .vnone, .vbool _ => isFalse (by intro k; injection k)
  | .vnone, .vlist _ => isFalse (by intro k; injection k)
  | .vnone, .vdict _ => isFalse (by intro k; injection k)
  | .vstr _, .vnone => isFalse (by intro k; injection k)
  | .vstr _, .vint _ => isFalse (by intro k; injection k)
  | .vstr _, .vbool _ => isFalse (by intro k; injection k)
  | .vstr _, .vlist _ => isFalse (by intro k; injection k)
  | .vstr _, .vdict _ => isFalse (by intro k; injection k)
  | .vint _, .vnone => isFalse (by intro k; injection k)
  | .vint _, .vstr _ => isFalse (by intro k; injection k)
  | .vint _, .vbool _ => isFalse (by intro k; injection k)
  | .vint _, .vlist _ => isFalse (by intro k; injection k)
  | .vint _, .vdict _ => isFalse (by intro k; injection k)
  | .vbool _, .vnone => isFalse (by intro k; injection k)
  | .vbool _, .vstr _ => isFalse (by intro k; injection k)
  | .vbool _, .vint _ => isFalse (by intro k; injection k)
  | .vbool _, .vlist _ => isFalse (by intro k; injection k)
  | .vbool _, .vdict _ => isFalse (by intro k; injection k)
  | .vlist _, .vnone => isFalse (by intro k; injection k)
  | .vlist _, .vstr _ => isFalse (by intro k; injection k)
  | .vlist _, .vint _ => isFalse (by intro k; injection k)
  | .vlist _, .vbool _ => isFalse (by intro k; injection k)
  | .vlist _, .vdict _ => isFalse (by intro k; injection k)
  | .vdict _, .vnone => isFalse (by intro k; injection k)
  | .vdict _, .vstr _ => isFalse (by intro k; injection k)
  | .vdict _, .vint _ => isFalse (by intro k; injection k)
  | .vdict _, .vbool _ => isFalse (by intro k; injection k)
  | .vdict _, .vlist _ => isFalse (by intro k; injection k)

def PyVal.decEqList : (a b : List PyVal) → Decidable (a = b)
  | [], [] => isTrue rfl
  | [], _ :: _ => isFalse (by intro k; injection k)
  | _ :: _, [] => isFalse (by intro k; injection k)
  | x :: xs, y :: ys =>
    match PyVal.decEq x y with
    | isFalse h => isFalse (by intro k; injection k; contradiction)
    | isTrue h1 =>
      match PyVal.decEqList xs ys with
      | isTrue h2 => isTrue (by rw [h1, h2])
      | isFalse h => isFalse (by intro k; injection k; contradiction)

def PyVal.decEqDict : (a b : List (String × PyVal)) → Decidable (a = b)
  | [], [] => isTrue rfl
  | [], _ :: _ => isFalse (by intro k; injection k)
  | _ :: _, [] => isFalse (by intro k; injection k)
  | (k1, v1) :: xs, (k2, v2) :: ys =>
    if hk : k1 = k2 then
      match PyVal.decEq v1 v2 with
      | isFalse h => isFalse (by intro k; injection k with k1 k2; rw [Prod.mk.injEq] at k1; exact h k1.2)
      | isTrue h1 =>
        match PyVal.decEqDict xs ys with
        | isTrue h2 => isTrue (by rw [hk, h1, h2])
        | isFalse h => isFalse (by intro k; injection k; contradiction)
    else isFalse (by intro k; injection k with k1 k2; rw [Prod.mk.injEq] at k1; exact hk k1.1)

end

instance : DecidableEq PyVal := PyVal.decEq

/-- Python `isinstance(d, dict)`. -/
def PyVal.isDict : PyVal → Bool
  | .vdict _ => true
  | _ => false

/-- Python `isinstance(d, list)`. -/
def PyVal.isList : PyVal → Bool
  | .vlist _ => true
  | _ => false

/-- Worker for Python `path.split(".")` over the path's characters. -/
def splitDotGo : List Char → List Char → List String
  | [], cur => [⟨cur⟩]
  | c :: t, cur => if c = '.' then ⟨cur⟩ :: splitDotGo t [] else splitDotGo t (cur ++ [c])

/-- Python `path.split(".")`: `""` yields `[""]`, separators are kept as
empty components. -/
def pySplitDot (s : String) : List String :=
  splitDotGo s.data []

/-- Python `d.get(key)`: the stored value, or `None` when absent. -/
def pyDictGet (d : List (String × PyVal)) (k : String) : PyVal :=
  (alookup k d).getD .vnone

/-- Python `d[0]`: first element of a list, first character of a string;
raises `IndexError` when empty, `KeyError` on a dict, `TypeError` on
anything else. -/
def pyIndex0 : PyVal → Except PyError PyVal
  | .vlist [] => .error (.otherError "IndexError")
  | .vlist (x :: _) => .ok x
  | .vstr s =>
    match s.data with
    | [] => .error (.otherError "IndexError")
    | c :: _ => .ok (.vstr ⟨[c]⟩)
  | .vdict _ => .error (.otherError "KeyError")
  | _ => .error (.otherError "TypeError")

/-- Body of the `for key in keys` loop of `get_by_path` (utils.py): a
dict advances via `d.get(key)`, an empty key indexes `d[0]`, anything
else returns `None`. -/
def getByPathGo : List String → PyVal → Except PyError PyVal
  | [], d => .ok d
  | k :: ks, d =>
    match d with
    | .vdict m => getByPathGo ks (pyDictGet m k)
    | _ =>
      if k = "" then
        match pyIndex0 d with
        | .ok v => getByPathGo ks v
        | .error e => .error e
      else .ok .vnone

/-- Embedding of `get_by_path` (utils.py): a list input is returned
directly; otherwise the dotted path is walked key by key. -/
def get_by_path (d : PyVal) (path : String) : Except PyError PyVal :=
  if d.isList then .ok d else getByPathGo (pySplitDot path) d

/-! ## Shape lemmas for `clean_string`

The output of `clean_string` is a list of nonempty whitespace-free words
joined by single spaces; on such strings every stage of `clean_string`
is the identity, which yields idempotence. -/

/-- Words as produced by `str.split()`: nonempty, no whitespace inside. -/
def GoodWords (ws : List (List Char)) : Prop :=
  ∀ w ∈ ws, w ≠ [] ∧ ∀ c ∈ w, pyIsSpace c = false

theorem lineBreak_isSpace (c : Char) (h : pyIsLineBreak c = true) : pyIsSpace c = true := by
  simp only [pyIsLineBreak, Bool.or_eq_true, Bool.and_eq_true, decide_eq_true_eq] at h
  simp only [pyIsSpace, Bool.or_eq_true, Bool.and_eq_true, decide_eq_true_eq]
  omega

theorem wordsGo_good : ∀ (l cur : List Char), (∀ c ∈ cur, pyIsSpace c = false) →
    GoodWords (wordsGo l cur) := by
  intro l
  induction l with
  | nil =>
    intro cur hcur
    by_cases hc : cur = []
    · simp [wordsGo, hc, GoodWords]
    · simp only [wordsGo, if_neg hc]
      intro w hw
      rw [List.mem_singleton] at hw
      subst hw
      exact ⟨hc, hcur⟩
  | cons c t ih =>
    intro cur hcur
    by_cases hs : pyIsSpace c
    · by_cases hc : cur = []
      · simpa [wordsGo, hs, hc] using ih [] (by simp)
      · simp only [wordsGo, if_pos hs, if_neg hc]
        intro w hw
        rcases List.mem_cons.mp hw with hw | hw
        · subst hw
          exact ⟨hc, hcur⟩
        · exact ih [] (by simp) w hw
    · simp only [wordsGo, if_neg hs]
      refine ih (cur ++ [c]) ?_
      intro a ha
      rcases List.mem_append.mp ha with ha | ha
      · exact hcur a ha
      · rw [List.mem_singleton] at ha
        subst ha
        simpa using hs

theorem wordsGo_append_word : ∀ (w r cur : List Char), (∀ c ∈ w, pyIsSpace c = false) →
    wordsGo (w ++ r) cur = wordsGo r (cur ++ w) := by
  intro w
  induction w with
  | nil => intro r cur _; simp
  | cons c w' ih =>
    intro r cur hw
    have hc : pyIsSpace c = false := hw c (by simp)
    simp only [List.cons_append, wordsGo, hc, Bool.false_eq_true, if_false, List.append_eq]
    rw [ih r (cur ++ [c]) (fun a ha => hw a (by simp [ha]))]
    simp

theorem pySplitWS_joinSpace : ∀ ws : List (List Char), GoodWords ws →
    pySplitWS (joinSpace ws) = ws := by
  intro ws
  induction ws with
  | nil => intro _; simp [pySplitWS, joinSpace, wordsGo]
  | cons w tail ih =>
    intro h
    have hw : w ≠ [] ∧ ∀ c ∈ w, pyIsSpace c = false := h w (by simp)
    cases tail with
    | nil =>
      show pySplitWS (joinSpace [w]) = [w]
      have : joinSpace [w] = w := rfl
      rw [this]
      unfold pySplitWS
      have := wordsGo_append_word w [] [] hw.2
      simp only [List.append_nil, List.nil_append] at this
      rw [this]
      simp [wordsGo, hw.1]
    | cons w2 rest =>
      show pySplitWS (w ++ ' ' :: joinSpace (w2 :: rest)) = w :: w2 :: rest
      unfold pySplitWS
      rw [wordsGo_append_word w (' ' :: joinSpace (w2 :: rest)) [] hw.2]
      simp only [List.nil_append]
      have hsp : pyIsSpace ' ' = true := by decide
      simp only [wordsGo, hsp, if_pos, if_neg hw.1, if_true]
      have := ih (fun v hv => h v (by simp [hv]))
      unfold pySplitWS at this
      rw [this]

theorem mem_joinSpace : ∀ (ws : List (List Char)) (c : Char), c ∈ joinSpace ws →
    (∃ w ∈ ws, c ∈ w) ∨ c = ' ' := by
  intro ws
  induction ws with
  | nil => intro c hc; simp [joinSpace] at hc
  | cons w tail ih =>
    intro c hc
    cases tail with
    | nil =>
      left
      exact ⟨w, by simp, hc⟩
    | cons w2 rest =>
      have : c ∈ w ++ ' ' :: joinSpace (w2 :: rest) := hc
      rcases List.mem_append.mp this with h | h
      · exact Or.inl ⟨w, by simp, h⟩
      · rcases List.mem_cons.mp h with h | h
        · exact Or.inr h
        · rcases ih c h with ⟨v, hv, hcv⟩ | h
          · exact Or.inl ⟨v, by simp [hv], hcv⟩
          · exact Or.inr h

theorem dropWhile_eq_self_of_head (p : Char → Bool) :
    ∀ l : List Char, (∀ c, l.head? = some c → p c = false) → l.dropWhile p = l := by
  intro l h
  cases l with
  | nil => rfl
  | cons c t => simp [List.dropWhile_cons, h c rfl]

theorem joinSpace_ne_nil (w : List Char) (tail : List (List Char)) (hw : w ≠ []) :
    joinSpace (w :: tail) ≠ [] := by
  cases tail with
  | nil => exact hw
  | cons w2 rest =>
    show w ++ ' ' :: joinSpace (w2 :: rest) ≠ []
    simp

theorem head_joinSpace_not_space : ∀ (ws : List (List Char)), GoodWords ws →
    ∀ c, (joinSpace ws).head? = some c → pyIsSpace c = false := by
  intro ws h c hc
  cases ws with
  | nil => simp [joinSpace] at hc
  | cons w tail =>
    have hw := h w (by simp)
    obtain ⟨cw, w', rfl⟩ : ∃ cw w', w = cw :: w' := by
      cases w with
      | nil => exact absurd rfl hw.1
      | cons a b => exact ⟨a, b, rfl⟩
    have hcw : cw = c := by
      cases tail with
      | nil => simpa [joinSpace] using hc
      | cons w2 rest =>
        have hh : ((cw :: w') ++ ' ' :: joinSpace (w2 :: rest)).head? = some c := hc
        simpa using hh
    subst hcw
    exact hw.2 cw (by simp)

theorem last_joinSpace_not_space : ∀ (ws : List (List Char)), GoodWords ws →
    ∀ c, (joinSpace ws).reverse.head? = some c → pyIsSpace c = false := by
  intro ws
  induction ws with
  | nil => intro _ c hc; simp [joinSpace] at hc
  | cons w tail ih =>
    intro h c hc
    have hw := h w (by simp)
    cases tail with
    | nil =>
      have : c ∈ w.reverse := List.mem_of_mem_head? hc
      exact hw.2 c (List.mem_reverse.mp this)
    | cons w2 rest =>
      have hrw : (joinSpace (w :: w2 :: rest)).reverse =
          (joinSpace (w2 :: rest)).reverse ++ (' ' :: w.reverse) := by
        show (w ++ ' ' :: joinSpace (w2 :: rest)).reverse = _
        rw [List.reverse_append, List.reverse_cons]
        simp
      rw [hrw] at hc
      have hne : (joinSpace (w2 :: rest)).reverse ≠ [] := by
        have h2 := h w2 (by simp)
        simpa using joinSpace_ne_nil w2 rest h2.1
      rw [List.head?_append_of_ne_nil _ hne] at hc
      exact ih (fun v hv => h v (by simp [hv])) c hc

theorem pyStripChars_joinSpace (ws : List (List Char)) (h : GoodWords ws) :
    pyStripChars (joinSpace ws) = joinSpace ws := by
  unfold pyStripChars
  rw [dropWhile_eq_self_of_head _ _ (head_joinSpace_not_space ws h)]
  rw [dropWhile_eq_self_of_head _ _ (last_joinSpace_not_space ws h)]
  simp

theorem splitlinesGo_no_lb : ∀ (l acc : List Char), (∀ c ∈ l, pyIsLineBreak c = false) →
    splitlinesGo l acc = if acc ++ l = [] then [] else [acc ++ l]
  | [], acc, _ => by simp [splitlinesGo]
  | [c], acc, h => by
    have hc : pyIsLineBreak c = false := h c (by simp)
    simp [splitlinesGo, hc]
  | c1 :: c2 :: t, acc, h => by
    have h1 : pyIsLineBreak c1 = false := h c1 (by simp)
    have hr : c1 ≠ '\r' := by
      intro he
      rw [he] at h1
      exact absurd h1 (by decide)
    rw [show splitlinesGo (c1 :: c2 :: t) acc = splitlinesGo (c2 :: t) (acc ++ [c1]) from by
      simp [splitlinesGo, hr, h1]]
    rw [splitlinesGo_no_lb (c2 :: t) (acc ++ [c1]) (fun a ha => h a (List.mem_cons_of_mem c1 ha))]
    simp

theorem joinSpace_pySplitlines_no_lb (l : List Char)
    (h : ∀ c ∈ l, pyIsLineBreak c = false) : joinSpace (pySplitlines l) = l := by
  unfold pySplitlines
  rw [splitlinesGo_no_lb l [] h]
  by_cases hl : l = []
  · simp [hl, joinSpace]
  · simp [hl, joinSpace]

theorem map_nbsp_id (l : List Char) (h : ∀ c ∈ l, c ≠ nbsp) :
    (l.map fun c => if c = nbsp then ' ' else c) = l := by
  have : (l.map fun c => if c = nbsp then ' ' else c) = l.map id := by
    refine List.map_congr_left ?_
    intro a ha
    simp [h a ha]
  rw [this, List.map_id]

theorem clean_chars_shape (l : List Char) :
    ∃ ws, GoodWords ws ∧ clean_chars l = joinSpace ws := by
  refine ⟨pySplitWS (pyStripChars (joinSpace (pySplitlines
    (l.map fun c => if c = nbsp then ' ' else c)))), ?_, ?_⟩
  · exact wordsGo_good _ [] (by simp)
  · show clean_chars l = joinSpace (pySplitWS _)
    unfold clean_chars
    exact pyStripChars_joinSpace _ (wordsGo_good _ [] (by simp))

theorem clean_chars_joinSpace (ws : List (List Char)) (h : GoodWords ws) :
    clean_chars (joinSpace ws) = joinSpace ws := by
  have hmem : ∀ c ∈ joinSpace ws, pyIsSpace c = false ∨ c = ' ' := by
    intro c hc
    rcases mem_joinSpace ws c hc with ⟨w, hw, hcw⟩ | hsp
    · exact Or.inl ((h w hw).2 c hcw)
    · exact Or.inr hsp
  have hnbsp : ∀ c ∈ joinSpace ws, c ≠ nbsp := by
    intro c hc he
    rcases hmem c hc with hns | hsp
    · rw [he] at hns
      exact absurd hns (by decide)
    · rw [he] at hsp
      exact absurd hsp (by decide)
  have hnlb : ∀ c ∈ joinSpace ws, pyIsLineBreak c = false := by
    intro c hc
    rcases hmem c hc with hns | hsp
    · by_contra hlb
      rw [lineBreak_isSpace c (by simpa using hlb)] at hns
      exact absurd hns (by simp)
    · rw [hsp]
      decide
  show pyStripChars (joinSpace (pySplitWS (pyStripChars (joinSpace (pySplitlines
    ((joinSpace ws).map fun c => if c = nbsp then ' ' else c)))))) = joinSpace ws
  rw [map_nbsp_id _ hnbsp, joinSpace_pySplitlines_no_lb _ hnlb,
    pyStripChars_joinSpace ws h, pySplitWS_joinSpace ws h, pyStripChars_joinSpace ws h]

/-! ## JSON job containers (`models/company.py`)

`JSONJobContainerMetadata` holds the configured paths; `JSONJobContainer`
resolves them against one JSON element.  `has_valid_country` implements
the country filter, including Python truthiness of `self.country`. -/

/-- Embedding of `JSONJobContainerMetadata` (models/company.py). -/
structure JSONJobContainerMetadata where
  jobs_path : String
  title_path : String
  id_path : String
  country_path : Option String
  country_target : Option String
  deriving DecidableEq

/-- Embedding of `JSONJobContainer`: the resolved title, id and
(lowercased) country of one JSON element. -/
structure JSONJobContainer where
  metadata : JSONJobContainerMetadata
  title : PyVal
  job_id : PyVal
  country : Option String

instance : DecidableEq JSONJobContainer := by
  intro a b
  obtain ⟨m1, t1, i1, c1⟩ := a
  obtain ⟨m2, t2, i2, c2⟩ := b
  by_cases h : m1 = m2 ∧ t1 = t2 ∧ i1 = i2 ∧ c1 = c2
  · exact isTrue (by rw [h.1, h.2.1, h.2.2.1, h.2.2.2])
  · refine isFalse fun he => ?_
    injection he with e1 e2 e3 e4
    exact h ⟨e1, e2, e3, e4⟩

/-- Python `.lower()` on the value returned by `get_by_path`: only a
string has the attribute, anything else raises `AttributeError`. -/
def pyLowerVal : PyVal → Except PyError String
  | .vstr s => .ok (pyLower s)
  | _ => .error .attributeError

/-- Embedding of `JSONJobContainer.__init__`: resolve `title_path` and
`id_path`, then — when both country settings are truthy — resolve and
lowercase the country field. -/
def JSONJobContainer.init (md : JSONJobContainerMetadata) (container_dict : PyVal) :
    Except PyError JSONJobContainer := do
  let title ← get_by_path container_dict md.title_path
  let job_id ← get_by_path container_dict md.id_path
  let country ←
    if truthyOptStr md.country_path && truthyOptStr md.country_target then do
      let cv ← get_by_path container_dict (md.country_path.getD "")
      let s ← pyLowerVal cv
      pure (some s)
    else
      pure (none : Option String)
  return ⟨md, title, job_id, country⟩

/-- Embedding of `JSONJobContainer.has_valid_country`: a falsy country
(`None` or `""`) passes; otherwise the stripped, lowercased configured
target is compared with the stored (lowercased, unstripped) country. -/
def has_valid_country (j : JSONJobContainer) : Except PyError Bool :=
  match j.country with
  | some s =>
    if s = "" then .ok true
    else
      match j.metadata.country_target with
      | some t => .ok (decide (pyLower (pyStrip t) = s))
      | none => .error .attributeError
  | none => .ok true

/-- Embedding of `CompanyData.extract_jobs_from_json`: resolve
`jobs_path`; a non-list yields no containers; each element becomes a
container, kept when `has_valid_country` holds.  There is no emptiness
check on titles or ids in this path. -/
def extract_jobs_from_json (md : JSONJobContainerMetadata) (json_dict : PyVal) :
    Except PyError (List JSONJobContainer) := do
  let jobs_list ← get_by_path json_dict md.jobs_path
  match jobs_list with
  | .vlist l =>
    l.foldlM
      (fun acc job_dict => do
        let potential_container ← JSONJobContainer.init md job_dict
        let ok ← has_valid_country potential_container
        pure (if ok then acc ++ [potential_container] else acc))
      []
  | _ => pure []

/-! ## HTML job containers (`models/company.py`)

An HTML container node is abstracted as its text plus its attribute
dict (`Soup`); the BeautifulSoup query `find_single_tag` is an external
collaborator passed in as `find`, and `re.search(rx, s).group(1)` is
passed in as `rsearch` (returning `none` when the regex does not match,
in which case `.group(1)` on Python's `None` raises `AttributeError`). -/

/-- A tag/attribute filter from the configuration (`attrs: {key, value?}`). -/
structure TagAttrs where
  key : String
  value : Option String
  deriving DecidableEq

/-- Embedding of `HTMLJobContainerMetadata` (models/company.py). -/
structure HTMLJobContainerMetadata where
  main_tag : String
  main_tag_attrs : Option TagAttrs
  title_tag : Option String
  title_tag_attrs : Option TagAttrs
  id_tag : Option String
  id_tag_attrs : Option TagAttrs
  id_tag_attr_location : Option String
  id_regex : Option String
  deriving DecidableEq

/-- One BeautifulSoup node, at the interface the extraction code uses:
its flattened text and its attribute dict. -/
structure Soup where
  text : String
  attrs : List (String × String)
  deriving DecidableEq

/-- The abstract type of `find_single_tag`: a tag query on a node that
may find nothing (BeautifulSoup returns `None`). -/
abbrev FindTag := Soup → String → Option TagAttrs → Option Soup

/-- The abstract type of `re.search(rx, s)` followed by `.group(1)`:
`some g` is the first capture group of a successful match, `none` a
failed match. -/
abbrev RegexSearch := String → String → Option String

/-- Embedding of `HTMLJobContainer.get_title`: the node's own text when
no title tag is configured, otherwise the text of the found child (a
missed find raises `AttributeError` via `None.text`); the cleaned title
must be nonempty or `ValueError` is raised. -/
def get_title (find : FindTag) (md : HTMLJobContainerMetadata) (soup : Soup) :
    Except PyError String := do
  let title_raw_string ←
    match md.title_tag with
    | none => pure soup.text
    | some t =>
      match find soup t md.title_tag_attrs with
      | none => Except.error PyError.attributeError
      | some title_soup => pure title_soup.text
  let title_processed_string := clean_string title_raw_string
  if title_processed_string = "" then
    Except.error (PyError.valueError
      "This soup object has an empty text content for the title attribute")
  else
    pure title_processed_string

/-- Embedding of `HTMLJobContainer.get_job_id`: a truthy `id_tag` is
searched for (a missed find raises `AttributeError`, a missing attribute
key raises `KeyError`); with no `id_tag` a truthy `id_tag_attr_location`
reads the container's own attribute, else the stripped title is the id;
an empty id raises `ValueError`. -/
def get_job_id (find : FindTag) (md : HTMLJobContainerMetadata) (soup : Soup)
    (title : String) : Except PyError String := do
  let fromAttrs (s : Soup) (loc : String) : Except PyError String :=
    match alookup loc s.attrs with
    | some v => .ok (pyStrip v)
    | none => .error (.otherError "KeyError")
  let fallback : Except PyError String :=
    match md.id_tag_attr_location with
    | some loc =>
      if loc = "" then .ok (pyStrip title) else fromAttrs soup loc
    | none => .ok (pyStrip title)
  let id_string ←
    match md.id_tag with
    | some t =>
      if t = "" then fallback
      else
        match find soup t md.id_tag_attrs with
        | none => Except.error PyError.attributeError
        | some id_soup =>
          match md.id_tag_attr_location with
          | some loc => if loc = "" then pure id_soup.text else fromAttrs id_soup loc
          | none => pure id_soup.text
    | none => fallback
  if id_string = "" then
    Except.error (PyError.valueError
      "This soup object has an empty text content for the id attribute")
  else
    pure id_string

/-- Embedding of `HTMLJobContainer.get_refined_id`: with a truthy regex
configured, the first capture group of `re.search` — where a failed
match makes `.group(1)` raise `AttributeError` — otherwise the raw id. -/
def get_refined_id (rsearch : RegexSearch) (md : HTMLJobContainerMetadata)
    (job_id : String) : Except PyError String :=
  match md.id_regex with
  | some rx =>
    if rx = "" then .ok job_id
    else
      match rsearch rx job_id with
      | some g => .ok g
      | none => .error .attributeError
  | none => .ok job_id

/-- Embedding of `HTMLJobContainer`: the extracted title, raw id and
refined id of one container node. -/
structure HTMLJobContainer where
  title : String
  job_id : String
  refined_id : String
  deriving DecidableEq, Repr

/-- Embedding of `HTMLJobContainer.__init__`: title, then raw id, then
refined id; any raised exception propagates to the caller. -/
def HTMLJobContainer.build (find : FindTag) (rsearch : RegexSearch)
    (md : HTMLJobContainerMetadata) (soup : Soup) : Except PyError HTMLJobContainer := do
  let title ← get_title find md soup
  let job_id ← get_job_id find md soup title
  let refined_id ← get_refined_id rsearch md job_id
  return ⟨title, job_id, refined_id⟩

/-- Embedding of the per-container loop of
`CompanyData.extract_jobs_from_html`: `ValueError` and `AttributeError`
skip the container silently, any other exception appends its message to
the error list, and in every case the loop continues with the next
container.  The container soups are the output of the external
`find_multiple_tags`. -/
def extract_jobs_from_html (find : FindTag) (rsearch : RegexSearch)
    (md : HTMLJobContainerMetadata) (errors : List String) (soups : List Soup) :
    List HTMLJobContainer × List String :=
  soups.foldl
    (fun st soup =>
      match HTMLJobContainer.build find rsearch md soup with
      | .ok c => (st.1 ++ [c], st.2)
      | .error (.valueError _) => st
      | .error .attributeError => st
      | .error (.otherError e) => (st.1, st.2 ++ [e]))
    ([], errors)

/-! ## Final jobs mappings (`models/company.py`)

`CompanyAPI.fetch_results` ends with
`{job.refined_id if hasattr(job, "refined_id") else job.job_id: job.title for job in job_containers}`;
HTML containers carry `refined_id`, JSON containers do not. -/

/-- The final `jobs_dict` of `CompanyAPI.fetch_results` for HTML-mode
containers (which all carry `refined_id`). -/
def fetch_results_jobs_dict (job_containers : List HTMLJobContainer) :
    List (String × String) :=
  pyDict (job_containers.map fun job => (job.refined_id, job.title))

/-- The final `jobs_dict` of `CompanyAPI.fetch_results` for JSON-mode
containers (no `refined_id` attribute, so keyed by `job_id`). -/
def fetch_results_jobs_dict_json (job_containers : List JSONJobContainer) :
    List (PyVal × PyVal) :=
  pyDict (job_containers.map fun job => (job.job_id, job.title))

/-- The id-refinement anomaly message of `CompanyScrape.scrape_results`. -/
def anomalyMsg (name : String) : String :=
  "Something wrong with the id refinement of the company " ++ name

/-- The empty-result message of `fetch_results` / `scrape_results`. -/
def noResultsMsg (name : String) : String :=
  "No results were retrieved; check the website of " ++ name

/-- Embedding of the tail of `CompanyScrape.scrape_results` (after all
containers are extracted): compare the cardinalities of the raw-id set
and the refined-id set; on disagreement report an anomaly and key the
mapping by raw `job_id`, otherwise key it by `refined_id`; finally
report an empty mapping. -/
def scrape_results_merge (name : String) (job_containers : List HTMLJobContainer)
    (errors : List String) : List (String × String) × List String :=
  let ids_set := (job_containers.map fun job => job.job_id).toFinset
  let refined_ids_set := (job_containers.map fun job => job.refined_id).toFinset
  let st :=
    if refined_ids_set.card ≠ ids_set.card then
      (pyDict (job_containers.map fun job => (job.job_id, job.title)),
        errors ++ [anomalyMsg name])
    else
      (pyDict (job_containers.map fun job => (job.refined_id, job.title)), errors)
  if st.1 = [] then (st.1, st.2 ++ [noResultsMsg name]) else st

/-! ## Convergence loops

`CompanyAPI.fetch_results` (iterative branch) and
`Company.fetch_results_of_pagination` (Models/company.py) are both
fetch/extract/merge loops with a count-convergence stop.  The fetch and
extraction of stage `n` is abstracted as `ext n`; the running
`job_containers_set` of the API loop is the key set of the accumulated
containers, so its size is that set's cardinality. -/

/-- Embedding of the `while True` loop of `CompanyAPI.fetch_results`
(iterative branch), with fuel: extend the accumulated containers by the
current stage's extraction, recompute the distinct-key count, stop when
it did not grow, else advance the stage.  `key` is
`job.refined_id if hasattr(job, "refined_id") else job.job_id`. -/
def fetch_results_loop {α K : Type} [DecidableEq K] (key : α → K) (ext : Nat → List α) :
    Nat → Nat → List α → Nat → Option (List α)
  | 0, _, _, _ => none
  | fuel + 1, stage, job_containers, job_nr_old =>
    let job_containers2 := job_containers ++ ext stage
    let job_nr_new := ((job_containers2.map key).toFinset).card
    if job_nr_new = job_nr_old then some job_containers2
    else fetch_results_loop key ext fuel (stage + 1) job_containers2 job_nr_new

/-- Embedding of `JobContainer` of Models/company.py (title and id). -/
structure PJobContainer where
  title : String
  id : String
  deriving DecidableEq, Repr

/-- Embedding of `Company.get_unique_results` (Models/company.py):
`{job.id: job for job in job_containers}.values()`. -/
def get_unique_results (job_containers : List PJobContainer) : List PJobContainer :=
  (pyDict (job_containers.map fun job => (job.id, job))).map Prod.snd

/-- Embedding of the `while True` loop of
`Company.fetch_results_of_pagination` (Models/company.py), with fuel:
a page with zero extracted containers stops the loop at once; otherwise
extend, deduplicate by id, stop when the unique count did not grow, else
click the next-page button (`btn`), stopping if it is absent. -/
def fetch_results_of_pagination (ext : Nat → List PJobContainer) (btn : Nat → Bool) :
    Nat → Nat → List PJobContainer → Nat → Option (List PJobContainer)
  | 0, _, _, _ => none
  | fuel + 1, page, job_containers, old_nr_results =>
    let new_containers := ext page
    if new_containers.length = 0 then some job_containers
    else
      let merged := get_unique_results (job_containers ++ new_containers)
      if merged.length = old_nr_results then some merged
      else if btn page then
        fetch_results_of_pagination ext btn fuel (page + 1) merged merged.length
      else some merged

/-! ## Lemmas about `get_unique_results` and the convergence loops -/

theorem insertPos_pair_inv {K V : Type} [DecidableEq K] (f : V → K) (k : K) (v : V)
    (d : List (K × V)) (hd : ∀ p ∈ d, f p.2 = p.1) (hv : f v = k) :
    ∀ p ∈ insertPos k v d, f p.2 = p.1 := by
  induction d with
  | nil =>
    intro p hp
    simp only [insertPos, List.mem_singleton] at hp
    subst hp
    exact hv
  | cons q t ih =>
    obtain ⟨k', v'⟩ := q
    intro p hp
    by_cases h : k' = k
    · simp only [insertPos, if_pos h] at hp
      rcases List.mem_cons.mp hp with hp | hp
      · subst hp; exact hv
      · exact hd p (List.mem_cons_of_mem _ hp)
    · simp only [insertPos, if_neg h] at hp
      rcases List.mem_cons.mp hp with hp | hp
      · subst hp; exact hd (k', v') (by simp)
      · exact ih (fun q hq => hd q (List.mem_cons_of_mem _ hq)) p hp

theorem foldl_insertPos_pair_inv {K V : Type} [DecidableEq K] (f : V → K) :
    ∀ (l d : List (K × V)), (∀ p ∈ l, f p.2 = p.1) → (∀ p ∈ d, f p.2 = p.1) →
      ∀ p ∈ l.foldl (fun d p => insertPos p.1 p.2 d) d, f p.2 = p.1 := by
  intro l
  induction l with
  | nil => intro d _ hd; simpa using hd
  | cons q t ih =>
    intro d hl hd
    simp only [List.foldl_cons]
    exact ih _ (fun p hp => hl p (List.mem_cons_of_mem _ hp))
      (insertPos_pair_inv f q.1 q.2 d hd (hl q (by simp)))

theorem pyDict_pair_inv {K V : Type} [DecidableEq K] (f : V → K) (l : List (K × V))
    (hl : ∀ p ∈ l, f p.2 = p.1) : ∀ p ∈ pyDict l, f p.2 = p.1 :=
  foldl_insertPos_pair_inv f l [] hl (by simp)

theorem get_unique_results_map_id (jobs : List PJobContainer) :
    (get_unique_results jobs).map (fun j => j.id) =
      (pyDict (jobs.map fun job => (job.id, job))).map Prod.fst := by
  unfold get_unique_results
  rw [List.map_map]
  refine List.map_congr_left ?_
  intro p hp
  exact pyDict_pair_inv (fun j => j.id) _
    (by
      intro q hq
      rw [List.mem_map] at hq
      obtain ⟨j, _, rfl⟩ := hq
      rfl) p hp

theorem get_unique_results_length (jobs : List PJobContainer) :
    (get_unique_results jobs).length = ((jobs.map fun j => j.id).toFinset).card := by
  unfold get_unique_results
  rw [List.length_map, pyDict_length, List.map_map]
  congr 1

theorem get_unique_results_ids_toFinset (jobs : List PJobContainer) :
    ((get_unique_results jobs).map fun j => j.id).toFinset =
      ((jobs.map fun j => j.id)).toFinset := by
  rw [get_unique_results_map_id, pyDict_keys_toFinset, List.map_map]
  congr 1

theorem fetch_results_loop_term_aux {α K : Type} [DecidableEq K] (key : α → K)
    (ext : Nat → List α) (A : Finset K)
    (hA : ∀ n, ((ext n).map key).toFinset ⊆ A) :
    ∀ (fuel stage : Nat) (acc : List α),
      (acc.map key).toFinset ⊆ A →
      A.card + 1 ≤ ((acc.map key).toFinset).card + fuel →
      ∃ r, fetch_results_loop key ext fuel stage acc (((acc.map key).toFinset).card)
        = some r := by
  intro fuel
  induction fuel with
  | zero =>
    intro stage acc hsub hle
    have := Finset.card_le_card hsub
    omega
  | succ fuel ih =>
    intro stage acc hsub hle
    have hsplit : ((acc ++ ext stage).map key).toFinset =
        (acc.map key).toFinset ∪ ((ext stage).map key).toFinset := by
      rw [List.map_append, List.toFinset_append]
    by_cases hc : (((acc ++ ext stage).map key).toFinset).card =
        ((acc.map key).toFinset).card
    · exact ⟨acc ++ ext stage, by simp only [fetch_results_loop, if_pos hc]⟩
    · have hsub2 : ((acc ++ ext stage).map key).toFinset ⊆ A := by
        rw [hsplit]
        exact Finset.union_subset hsub (hA stage)
      have hmono : ((acc.map key).toFinset).card ≤
          (((acc ++ ext stage).map key).toFinset).card := by
        refine Finset.card_le_card ?_
        rw [hsplit]
        exact Finset.subset_union_left
      obtain ⟨r, hr⟩ := ih (stage + 1) (acc ++ ext stage) hsub2 (by omega)
      exact ⟨r, by simp only [fetch_results_loop, if_neg hc]; exact hr⟩

theorem pagination_loop_term_aux (ext : Nat → List PJobContainer) (btn : Nat → Bool)
    (A : Finset String)
    (hA : ∀ n, ((ext n).map fun j => j.id).toFinset ⊆ A) :
    ∀ (fuel page : Nat) (acc : List PJobContainer),
      ((acc.map fun j => j.id)).toFinset ⊆ A →
      A.card + 1 ≤ (((acc.map fun j => j.id)).toFinset).card + fuel →
      ∃ r, fetch_results_of_pagination ext btn fuel page acc
        ((((acc.map fun j => j.id)).toFinset).card) = some r := by
  intro fuel
  induction fuel with
  | zero =>
    intro page acc hsub hle
    have := Finset.card_le_card hsub
    omega
  | succ fuel ih =>
    intro page acc hsub hle
    by_cases hz : (ext page).length = 0
    · exact ⟨acc, by simp only [fetch_results_of_pagination, if_pos hz]⟩
    · have hsplit : (((acc ++ ext page).map fun j => j.id)).toFinset =
          ((acc.map fun j => j.id)).toFinset ∪ (((ext page).map fun j => j.id)).toFinset := by
        rw [List.map_append, List.toFinset_append]
      have hlen : (get_unique_results (acc ++ ext page)).length =
          ((((acc ++ ext page).map fun j => j.id)).toFinset).card :=
        get_unique_results_length _
      by_cases hc : (get_unique_results (acc ++ ext page)).length =
          (((acc.map fun j => j.id)).toFinset).card
      · exact ⟨get_unique_results (acc ++ ext page),
          by simp only [fetch_results_of_pagination, if_neg hz, if_pos hc]⟩
      · have hsub2 : (((get_unique_results (acc ++ ext page)).map fun j => j.id)).toFinset ⊆ A := by
          rw [get_unique_results_ids_toFinset, hsplit]
          exact Finset.union_subset hsub (hA page)
        have hmono : (((acc.map fun j => j.id)).toFinset).card ≤
            (get_unique_results (acc ++ ext page)).length := by
          rw [hlen]
          refine Finset.card_le_card ?_
          rw [hsplit]
          exact Finset.subset_union_left
        have hcardeq : ((((get_unique_results (acc ++ ext page)).map fun j => j.id)).toFinset).card
            = (get_unique_results (acc ++ ext page)).length := by
          rw [get_unique_results_ids_toFinset, hlen]
        cases hb : btn page with
        | true =>
          obtain ⟨r, hr⟩ := ih (page + 1) (get_unique_results (acc ++ ext page)) hsub2
            (by omega)
          rw [hcardeq] at hr
          exact ⟨r, by
            simp only [fetch_results_of_pagination, if_neg hz, if_neg hc, hb, if_pos]
            exact hr⟩
        | false =>
          exact ⟨get_unique_results (acc ++ ext page), by
            simp only [fetch_results_of_pagination, if_neg hz, if_neg hc, hb,
              Bool.false_eq_true, if_false]⟩

/-! ## Claim theorems -/

/-- C1: for every sequence of payloads merged by a company run, the
final jobs mapping never contains two entries with the same refinedId
(its keys are pairwise distinct — also in the scrape path, whichever
branch built it), and the entry stored for a refinedId is the title of
the last extracted container carrying that refinedId: last-seen wins,
never a duplicate entry. -/
theorem fetch_results_dedup_last_wins {P : Type} (payloads : List P)
    (extract : P → List HTMLJobContainer) (name : String)
    (scrape_jobs : List HTMLJobContainer) (scrape_errors : List String) :
    ((fetch_results_jobs_dict (payloads.flatMap extract)).map Prod.fst).Nodup ∧
    (∀ rid, alookup rid (fetch_results_jobs_dict (payloads.flatMap extract)) =
      lastVal rid ((payloads.flatMap extract).map fun j => (j.refined_id, j.title))) ∧
    ((scrape_results_merge name scrape_jobs scrape_errors).1.map Prod.fst).Nodup := by
  refine ⟨pyDict_nodup_keys _, fun rid => alookup_pyDict _ _, ?_⟩
  unfold scrape_results_merge
  dsimp only
  split_ifs <;> exact pyDict_nodup_keys _

/-- C2: both convergence loops — the iterative API fetch loop of
`CompanyAPI.fetch_results` and the pagination loop of
`Company.fetch_results_of_pagination` — terminate in finitely many
iterations whenever the per-stage extraction sequence is eventually
constant (eventually empty being the constant-`[]` case). -/
theorem convergence_loops_terminate {α K : Type} [DecidableEq K] (key : α → K)
    (ext : Nat → List α) (N : Nat) (hconst : ∀ n, N ≤ n → ext n = ext N)
    (pext : Nat → List PJobContainer) (pbtn : Nat → Bool) (M : Nat)
    (hpconst : ∀ n, M ≤ n → pext n = pext M) :
    (∃ fuel result, fetch_results_loop key ext fuel 0 [] 0 = some result) ∧
    (∃ fuel result, fetch_results_of_pagination pext pbtn fuel 0 [] 0 = some result) := by
  constructor
  · set A := (((List.range (N + 1)).flatMap ext).map key).toFinset with hA_def
    have hA : ∀ n, ((ext n).map key).toFinset ⊆ A := by
      intro n k hk
      rw [List.mem_toFinset, List.mem_map] at hk
      obtain ⟨a, ha, rfl⟩ := hk
      rw [hA_def, List.mem_toFinset, List.mem_map]
      rcases le_or_lt n N with hn | hn
      · exact ⟨a, List.mem_flatMap.mpr ⟨n, List.mem_range.mpr (by omega), ha⟩, rfl⟩
      · refine ⟨a, List.mem_flatMap.mpr ⟨N, List.mem_range.mpr (by omega), ?_⟩, rfl⟩
        rw [← hconst n (by omega)]
        exact ha
    obtain ⟨r, hr⟩ := fetch_results_loop_term_aux key ext A hA (A.card + 1) 0 []
      (by simp) (by simp)
    refine ⟨A.card + 1, r, ?_⟩
    simpa using hr
  · set A := (((List.range (M + 1)).flatMap pext).map fun j => j.id).toFinset with hA_def
    have hA : ∀ n, ((pext n).map fun j => j.id).toFinset ⊆ A := by
      intro n k hk
      rw [List.mem_toFinset, List.mem_map] at hk
      obtain ⟨a, ha, rfl⟩ := hk
      rw [hA_def, List.mem_toFinset, List.mem_map]
      rcases le_or_lt n M with hn | hn
      · exact ⟨a, List.mem_flatMap.mpr ⟨n, List.mem_range.mpr (by omega), ha⟩, rfl⟩
      · refine ⟨a, List.mem_flatMap.mpr ⟨M, List.mem_range.mpr (by omega), ?_⟩, rfl⟩
        rw [← hpconst n (by omega)]
        exact ha
    obtain ⟨r, hr⟩ := pagination_loop_term_aux pext pbtn A hA (A.card + 1) 0 []
      (by simp) (by simp)
    refine ⟨A.card + 1, r, ?_⟩
    simpa using hr

/-- Witness for C2: both loops terminate on a concrete fetcher whose
extraction sequence is constant from the start. -/
theorem convergence_loops_terminate_witness :
    (∃ fuel result,
      fetch_results_loop (fun s : String => s) (fun _ => ["a"]) fuel 0 [] 0 = some result) ∧
    (∃ fuel result,
      fetch_results_of_pagination (fun _ => [⟨"t", "a"⟩]) (fun _ => true) fuel 0 [] 0
        = some result) :=
  convergence_loops_terminate (fun s : String => s) (fun _ => ["a"]) 0 (fun _ _ => rfl)
    (fun _ => [⟨"t", "a"⟩]) (fun _ => true) 0 (fun _ _ => rfl)

/-- C6: on a discrete-pagination source, a fetched page from which zero
job containers are extracted terminates the loop immediately with the
accumulated containers unchanged, no matter how many results were
already accumulated, and no further page is fetched. -/
theorem pagination_empty_page_stops (ext : Nat → List PJobContainer) (btn : Nat → Bool)
    (fuel page old_nr_results : Nat) (acc : List PJobContainer)
    (h : ext page = []) :
    fetch_results_of_pagination ext btn (fuel + 1) page acc old_nr_results = some acc := by
  simp [fetch_results_of_pagination, h]

/-- Concrete jobs used by the C6 witness: twelve distinct accumulated
containers. -/
def demoJobs12 : List PJobContainer :=
  [⟨"t1", "i1"⟩, ⟨"t2", "i2"⟩, ⟨"t3", "i3"⟩, ⟨"t4", "i4"⟩, ⟨"t5", "i5"⟩, ⟨"t6", "i6"⟩,
    ⟨"t7", "i7"⟩, ⟨"t8", "i8"⟩, ⟨"t9", "i9"⟩, ⟨"t10", "i10"⟩, ⟨"t11", "i11"⟩, ⟨"t12", "i12"⟩]

/-- Witness for C6: with twelve containers already accumulated, a page
that extracts to zero containers stops the loop at once and keeps the
twelve. -/
theorem pagination_empty_page_stops_witness :
    fetch_results_of_pagination (fun _ => []) (fun _ => true) 5 3 demoJobs12 12
      = some demoJobs12 ∧ demoJobs12.length = 12 :=
  ⟨pagination_empty_page_stops (fun _ => []) (fun _ => true) 4 3 12 demoJobs12 rfl, rfl⟩

/-- C9: title normalization is idempotent — applying `clean_string` to
an already-cleaned string returns it unchanged. -/
theorem clean_string_idempotent (s : String) :
    clean_string (clean_string s) = clean_string s := by
  obtain ⟨ws, hgood, heq⟩ := clean_chars_shape s.data
  show (⟨clean_chars (clean_chars s.data)⟩ : String) = ⟨clean_chars s.data⟩
  rw [heq, clean_chars_joinSpace ws hgood]

/-- C8: after extraction the scrape path compares the raw-id set with
the refined-id set; on different cardinalities the anomaly error is
appended and the mapping is keyed by raw `job_id`, on agreement the
mapping is keyed by `refined_id` and the error list gains at most the
empty-result message. -/
theorem scrape_results_id_refinement_check (name : String)
    (jobs : List HTMLJobContainer) (errors : List String) :
    (((jobs.map fun j => j.refined_id).toFinset).card ≠
        ((jobs.map fun j => j.job_id).toFinset).card →
      (scrape_results_merge name jobs errors).1 =
        pyDict (jobs.map fun j => (j.job_id, j.title)) ∧
      anomalyMsg name ∈ (scrape_results_merge name jobs errors).2) ∧
    (((jobs.map fun j => j.refined_id).toFinset).card =
        ((jobs.map fun j => j.job_id).toFinset).card →
      (scrape_results_merge name jobs errors).1 =
        pyDict (jobs.map fun j => (j.refined_id, j.title)) ∧
      ((scrape_results_merge name jobs errors).2 = errors ∨
        (scrape_results_merge name jobs errors).2 = errors ++ [noResultsMsg name])) := by
  constructor
  · intro hne
    unfold scrape_results_merge
    dsimp only
    simp only [if_pos hne]
    split_ifs <;> simp
  · intro heq
    unfold scrape_results_merge
    dsimp only
    simp only [if_neg (by omega : ¬ ((jobs.map fun j => j.refined_id).toFinset).card ≠
      ((jobs.map fun j => j.job_id).toFinset).card)]
    split_ifs <;> simp

/-- Witness for C8: a refinement collision (two raw ids refined to the
same id) triggers the raw-id fallback and the anomaly message, while an
injective refinement keeps the refined-id keys and adds no anomaly. -/
theorem scrape_results_id_refinement_check_witness :
    ((scrape_results_merge "acme" [⟨"T1", "a", "X"⟩, ⟨"T2", "b", "X"⟩] []).1 =
        pyDict ([⟨"T1", "a", "X"⟩, ⟨"T2", "b", "X"⟩].map
          fun j : HTMLJobContainer => (j.job_id, j.title)) ∧
      anomalyMsg "acme" ∈ (scrape_results_merge "acme" [⟨"T1", "a", "X"⟩, ⟨"T2", "b", "X"⟩] []).2) ∧
    ((scrape_results_merge "acme" [⟨"T1", "a", "ra"⟩] []).1 =
        pyDict ([⟨"T1", "a", "ra"⟩].map fun j : HTMLJobContainer => (j.refined_id, j.title)) ∧
      ((scrape_results_merge "acme" [⟨"T1", "a", "ra"⟩] []).2 = [] ∨
        (scrape_results_merge "acme" [⟨"T1", "a", "ra"⟩] []).2 = [] ++ [noResultsMsg "acme"])) :=
  ⟨(scrape_results_id_refinement_check "acme" [⟨"T1", "a", "X"⟩, ⟨"T2", "b", "X"⟩] []).1
      (by decide),
    (scrape_results_id_refinement_check "acme" [⟨"T1", "a", "ra"⟩] []).2 (by decide)⟩

/-- Counterexample to C7: a sequence encountered mid-walk is not
returned directly — with the dict `{"a": [1, 2]}` and path `"a.b"`,
`get_by_path` returns `None`, not the list. -/
theorem get_by_path_mid_walk_list_counterexample :
    get_by_path (.vdict [("a", .vlist [.vint 1, .vint 2])]) "a.b" = .ok .vnone ∧
    (Except.ok PyVal.vnone : Except PyError PyVal) ≠
      .ok (.vlist [.vint 1, .vint 2]) := by
  refine ⟨rfl, fun h => ?_⟩
  injection h with h2
  exact PyVal.noConfusion h2

/-- C7 (amended): `get_by_path` returns the input sequence directly only
when the initial value is a sequence; during the walk a nonempty key on
any non-dict value (sequences included) yields `None`, an absent key of
a dict turns the current value into `None`, and a walk over nonempty
keys starting from `None` returns `None`. -/
theorem get_by_path_walk_behaviour :
    (∀ (l : List PyVal) (path : String), get_by_path (.vlist l) path = .ok (.vlist l)) ∧
    (∀ (d : PyVal) (k : String) (ks : List String), d.isDict = false → k ≠ "" →
      getByPathGo (k :: ks) d = .ok .vnone) ∧
    (∀ (m : List (String × PyVal)) (k : String) (ks : List String),
      alookup k m = none → getByPathGo (k :: ks) (.vdict m) = getByPathGo ks .vnone) ∧
    (∀ ks : List String, (∀ k ∈ ks, k ≠ "") → getByPathGo ks .vnone = .ok .vnone) := by
  refine ⟨fun l path => by simp [get_by_path, PyVal.isList], ?_, ?_, ?_⟩
  · intro d k ks hd hk
    cases d <;> simp_all [getByPathGo, PyVal.isDict]
  · intro m k ks h
    simp [getByPathGo, pyDictGet, h]
  · intro ks hks
    cases ks with
    | nil => rfl
    | cons k t => simp [getByPathGo, hks k (by simp)]

/-- Witness for C7 (amended): the four behaviours at concrete inputs. -/
theorem get_by_path_walk_behaviour_witness :
    get_by_path (.vlist [.vint 3]) "x.y" = .ok (.vlist [.vint 3]) ∧
    getByPathGo ["b"] (.vlist [.vint 1]) = .ok .vnone ∧
    getByPathGo ["miss", "b"] (.vdict [("a", .vint 1)]) = getByPathGo ["b"] .vnone ∧
    getByPathGo ["b"] .vnone = .ok .vnone :=
  ⟨get_by_path_walk_behaviour.1 [.vint 3] "x.y",
    get_by_path_walk_behaviour.2.1 (.vlist [.vint 1]) "b" [] rfl (by decide),
    get_by_path_walk_behaviour.2.2.1 [("a", .vint 1)] "miss" ["b"] rfl,
    get_by_path_walk_behaviour.2.2.2 ["b"] (by decide)⟩

/-- Counterexample to C3: with a configured id regex that does not match
the first container's raw id, `re.search` returns `None`, `.group(1)`
raises `AttributeError`, and `extract_jobs_from_html` catches it: the
first container is silently skipped, no error is recorded, and
extraction continues with — and keeps — the second container; the
company run is not aborted. -/
theorem regex_no_match_not_fatal_counterexample :
    HTMLJobContainer.build (fun _ _ _ => none)
      (fun rx s => if rx = "job-(\\d+)" && s = "job-482" then some "482" else none)
      ⟨"div", none, none, none, none, none, some "data-id", some "job-(\\d+)"⟩
      ⟨"Engineer", [("data-id", "nope")]⟩ = .error .attributeError ∧
    extract_jobs_from_html (fun _ _ _ => none)
      (fun rx s => if rx = "job-(\\d+)" && s = "job-482" then some "482" else none)
      ⟨"div", none, none, none, none, none, some "data-id", some "job-(\\d+)"⟩ []
      [⟨"Engineer", [("data-id", "nope")]⟩, ⟨"Manager", [("data-id", " job-482 ")]⟩] =
      ([⟨"Manager", "job-482", "482"⟩], []) :=
  ⟨rfl, rfl⟩

/-- C3 (amended): when a truthy id regex is configured and `re.search`
finds no match on the raw id, `get_refined_id` raises `AttributeError`
— record construction indeed fails — but `extract_jobs_from_html`
catches `AttributeError` like any malformed container: the container is
silently skipped, nothing is appended to the error list, and extraction
continues with the remaining containers; the company run is not
aborted. -/
theorem regex_no_match_skips_container (find : FindTag) (rsearch : RegexSearch)
    (md : HTMLJobContainerMetadata) (rx job_id : String) (soup : Soup)
    (soups : List Soup) (errors : List String)
    (hrx : md.id_regex = some rx) (hne : rx ≠ "") (hmiss : rsearch rx job_id = none)
    (hbuild : HTMLJobContainer.build find rsearch md soup = .error .attributeError) :
    get_refined_id rsearch md job_id = .error .attributeError ∧
    extract_jobs_from_html find rsearch md errors (soup :: soups) =
      extract_jobs_from_html find rsearch md errors soups := by
  constructor
  · simp [get_refined_id, hrx, hne, hmiss]
  · simp only [extract_jobs_from_html, List.foldl_cons, hbuild]

/-- Witness for C3 (amended): a never-matching regex search makes the
refined-id step raise, and the failing container contributes neither a
container nor an error while the next one is still processed. -/
theorem regex_no_match_skips_container_witness :
    get_refined_id (fun _ _ => none)
      ⟨"div", none, none, none, none, none, some "data-id", some "job-(\\d+)"⟩ "nope" =
      .error .attributeError ∧
    extract_jobs_from_html (fun _ _ _ => none) (fun _ _ => none)
      ⟨"div", none, none, none, none, none, some "data-id", some "job-(\\d+)"⟩ ["earlier"]
      [⟨"Engineer", [("data-id", "nope")]⟩, ⟨"Manager", [("data-id", "x")]⟩] =
      extract_jobs_from_html (fun _ _ _ => none) (fun _ _ => none)
        ⟨"div", none, none, none, none, none, some "data-id", some "job-(\\d+)"⟩ ["earlier"]
        [⟨"Manager", [("data-id", "x")]⟩] :=
  regex_no_match_skips_container (fun _ _ _ => none) (fun _ _ => none)
    ⟨"div", none, none, none, none, none, some "data-id", some "job-(\\d+)"⟩
    "job-(\\d+)" "nope" ⟨"Engineer", [("data-id", "nope")]⟩
    [⟨"Manager", [("data-id", "x")]⟩] ["earlier"] rfl (by decide) rfl rfl

/-- Reduction of an Except bind whose first action already succeeded. -/
theorem exceptBind_ok {e a b : Type} (x : a) (f : a → Except e b) :
    (do let y ← Except.ok (ε := e) x; f y) = f x := rfl

/-- Reduction of `Functor.map` over a successful Except value. -/
theorem exceptMap_ok {e a b : Type} (f : a → b) (x : a) :
    (f <$> (Except.ok x : Except e a)) = Except.ok (f x) := rfl

/-- `pure` of the Except monad is `Except.ok`. -/
theorem exceptPure_eq {e a : Type} (x : a) : (pure x : Except e a) = Except.ok x := rfl

/-- Counterexample to C4: in JSON mode there is no emptiness check — an
element whose title and id fields are both the empty string yields a
container that extraction keeps and that is merged into the final jobs
mapping. -/
theorem json_empty_record_merged_counterexample :
    extract_jobs_from_json ⟨"jobs", "title", "id", none, none⟩
      (.vdict [("jobs", .vlist [.vdict [("title", .vstr ""), ("id", .vstr "")]])]) =
      .ok [⟨⟨"jobs", "title", "id", none, none⟩, .vstr "", .vstr "", none⟩] ∧
    fetch_results_jobs_dict_json
      [⟨⟨"jobs", "title", "id", none, none⟩, .vstr "", .vstr "", none⟩] =
      [(.vstr "", .vstr "")] :=
  ⟨rfl, rfl⟩

/-- C4 (amended): in HTML mode a candidate whose title is empty after
normalization raises `ValueError` during construction, and a
`ValueError` makes the container silently skipped — not merged and not
reported; in JSON mode no emptiness check exists: every container that
the country filter accepts is kept, empty title or id included. -/
theorem empty_record_handling (find : FindTag) (rsearch : RegexSearch)
    (md : HTMLJobContainerMetadata) (soup : Soup) (soups : List Soup)
    (errors : List String) (m : String)
    (jmd : JSONJobContainerMetadata) (payload jd : PyVal) (c : JSONJobContainer)
    (htitle : md.title_tag = none) (hempty : clean_string soup.text = "")
    (hbuild : HTMLJobContainer.build find rsearch md soup = .error (.valueError m))
    (hpath : get_by_path payload jmd.jobs_path = .ok (.vlist [jd]))
    (hinit : JSONJobContainer.init jmd jd = .ok c)
    (hcountry : has_valid_country c = .ok true) :
    get_title find md soup = .error (.valueError
      "This soup object has an empty text content for the title attribute") ∧
    extract_jobs_from_html find rsearch md errors (soup :: soups) =
      extract_jobs_from_html find rsearch md errors soups ∧
    extract_jobs_from_json jmd payload = .ok [c] := by
  refine ⟨?_, ?_, ?_⟩
  · simp [get_title, htitle, hempty]
  · simp only [extract_jobs_from_html, List.foldl_cons, hbuild]
  · simp [extract_jobs_from_json, hpath, List.foldlM, hinit, hcountry, exceptBind_ok,
      exceptMap_ok, exceptPure_eq]

/-- Witness for C4 (amended): a whitespace-only HTML title is skipped
silently while a JSON record with empty title and id is kept. -/
theorem empty_record_handling_witness :
    get_title (fun _ _ _ => none) ⟨"div", none, none, none, none, none, none, none⟩
      ⟨"  ", []⟩ = .error (.valueError
      "This soup object has an empty text content for the title attribute") ∧
    extract_jobs_from_html (fun _ _ _ => none) (fun _ _ => none)
      ⟨"div", none, none, none, none, none, none, none⟩ []
      [⟨"  ", []⟩, ⟨"Manager", []⟩] =
      extract_jobs_from_html (fun _ _ _ => none) (fun _ _ => none)
        ⟨"div", none, none, none, none, none, none, none⟩ [] [⟨"Manager", []⟩] ∧
    extract_jobs_from_json ⟨"jobs", "title", "id", none, none⟩
      (.vdict [("jobs", .vlist [.vdict [("title", .vstr ""), ("id", .vstr "")]])]) =
      .ok [⟨⟨"jobs", "title", "id", none, none⟩, .vstr "", .vstr "", none⟩] :=
  empty_record_handling (fun _ _ _ => none) (fun _ _ => none)
    ⟨"div", none, none, none, none, none, none, none⟩ ⟨"  ", []⟩ [⟨"Manager", []⟩] []
    "This soup object has an empty text content for the title attribute"
    ⟨"jobs", "title", "id", none, none⟩
    (.vdict [("jobs", .vlist [.vdict [("title", .vstr ""), ("id", .vstr "")]])])
    (.vdict [("title", .vstr ""), ("id", .vstr "")])
    ⟨⟨"jobs", "title", "id", none, none⟩, .vstr "", .vstr "", none⟩
    rfl rfl rfl rfl rfl rfl

/-- The metadata of the C5 scenario: a country filter expecting
`"Portugal"`. -/
def mdPortugal : JSONJobContainerMetadata :=
  ⟨"jobs", "title", "id", some "country", some "Portugal"⟩

/-- The JSON element of the C5 scenario: country field `"PORTUGAL "`. -/
def jdPortugal : PyVal :=
  .vdict [("title", .vstr "T"), ("id", .vstr "1"), ("country", .vstr "PORTUGAL ")]

/-- Counterexample to C5 (spec Scenario D): with
`country.correct_value = "Portugal"` and element country field
`"PORTUGAL "`, the stored country is the lowercased but untrimmed
`"portugal "`, the comparison fails, `has_valid_country` is `false` and
the record is dropped — not kept as the claim states. -/
theorem country_filter_counterexample :
    JSONJobContainer.init mdPortugal jdPortugal =
      .ok ⟨mdPortugal, .vstr "T", .vstr "1", some "portugal "⟩ ∧
    has_valid_country ⟨mdPortugal, .vstr "T", .vstr "1", some "portugal "⟩ = .ok false ∧
    extract_jobs_from_json mdPortugal (.vdict [("jobs", .vlist [jdPortugal])]) = .ok [] :=
  ⟨rfl, rfl, rfl⟩

/-- C5 (amended): with a configured country filter, a record whose
country field is a string is kept exactly when its lowercased — but
untrimmed — value equals the trimmed-and-lowercased configured expected
value, except that a record whose lowercased country is empty always
passes; `"PORTUGAL "` against `"Portugal"` is therefore dropped, since
only the configured side is trimmed. -/
theorem country_filter_semantics (md : JSONJobContainerMetadata) (jd : PyVal)
    (p t : String) (tv iv : PyVal) (c : String)
    (hp : md.country_path = some p) (hpne : p ≠ "")
    (ht : md.country_target = some t) (htne : t ≠ "")
    (htitle : get_by_path jd md.title_path = .ok tv)
    (hid : get_by_path jd md.id_path = .ok iv)
    (hc : get_by_path jd p = .ok (.vstr c)) :
    JSONJobContainer.init md jd = .ok ⟨md, tv, iv, some (pyLower c)⟩ ∧
    has_valid_country ⟨md, tv, iv, some (pyLower c)⟩ =
      .ok (if pyLower c = "" then true
        else decide (pyLower (pyStrip t) = pyLower c)) := by
  constructor
  · simp [JSONJobContainer.init, htitle, hid, hp, ht, truthyOptStr, hpne, htne, hc,
      pyLowerVal, exceptBind_ok, exceptMap_ok, exceptPure_eq]
  · by_cases he : pyLower c = ""
    · simp [has_valid_country, he]
    · simp [has_valid_country, he, ht]

/-- Witness for C5 (amended): the Scenario D input — `"PORTUGAL "`
against expected `"Portugal"` — evaluates the kept-test to `false`. -/
theorem country_filter_semantics_witness :
    JSONJobContainer.init mdPortugal jdPortugal =
      .ok ⟨mdPortugal, .vstr "T", .vstr "1", some (pyLower "PORTUGAL ")⟩ ∧
    has_valid_country ⟨mdPortugal, .vstr "T", .vstr "1", some (pyLower "PORTUGAL ")⟩ =
      .ok (if pyLower "PORTUGAL " = "" then true
        else decide (pyLower (pyStrip "Portugal") = pyLower "PORTUGAL ")) :=
  country_filter_semantics mdPortugal jdPortugal "country" "Portugal"
    (.vstr "T") (.vstr "1") "PORTUGAL " rfl (by decide) rfl (by decide) rfl rfl rfl

/-- C10: with a country filter configured, a JSON element whose country
field resolves to the empty string passes the filter — `""` is falsy so
`has_valid_country` returns `true` — and the record is kept by
extraction, although `""` does not equal the configured expected
value. -/
theorem empty_country_passes_filter (c : JSONJobContainer)
    (jmd : JSONJobContainerMetadata) (payload jd : PyVal)
    (hc : c.country = some "")
    (hpath : get_by_path payload jmd.jobs_path = .ok (.vlist [jd]))
    (hinit : JSONJobContainer.init jmd jd = .ok c) :
    has_valid_country c = .ok true ∧ extract_jobs_from_json jmd payload = .ok [c] := by
  have h1 : has_valid_country c = .ok true := by simp [has_valid_country, hc]
  exact ⟨h1, by simp [extract_jobs_from_json, hpath, List.foldlM, hinit, h1, exceptBind_ok,
    exceptMap_ok, exceptPure_eq]⟩

/-- Witness for C10: a record with country field `""` under the
`"Portugal"` filter is accepted and kept, though `""` is not the
expected value. -/
theorem empty_country_passes_filter_witness :
    has_valid_country ⟨mdPortugal, .vstr "T", .vstr "1", some ""⟩ = .ok true ∧
    extract_jobs_from_json mdPortugal
      (.vdict [("jobs", .vlist [.vdict [("title", .vstr "T"), ("id", .vstr "1"),
        ("country", .vstr "")]])]) =
      .ok [⟨mdPortugal, .vstr "T", .vstr "1", some ""⟩] ∧
    ("" : String) ≠ "Portugal" :=
  ⟨(empty_country_passes_filter ⟨mdPortugal, .vstr "T", .vstr "1", some ""⟩ mdPortugal
      (.vdict [("jobs", .vlist [.vdict [("title", .vstr "T"), ("id", .vstr "1"),
        ("country", .vstr "")]])])
      (.vdict [("title", .vstr "T"), ("id", .vstr "1"), ("country", .vstr "")])
      rfl rfl rfl).1,
    (empty_country_passes_filter ⟨mdPortugal, .vstr "T", .vstr "1", some ""⟩ mdPortugal
      (.vdict [("jobs", .vlist [.vdict [("title", .vstr "T"), ("id", .vstr "1"),
        ("country", .vstr "")]])])
      (.vdict [("title", .vstr "T"), ("id", .vstr "1"), ("country", .vstr "")])
      rfl rfl rfl).2,
    by decide⟩
